import Mathlib

/-!
Shallow embedding of the position-reconstruction and profit-attribution core
of the MT5 trading dashboard (src/mt5/mt5_client.py, calculate_profits_dashbords.py,
src/utils/helpers.py), together with theorems settling the specification claims.

Modelling conventions:
* money, volumes and prices are rationals (the source uses Python floats; the
  claims under scrutiny are algebraic, not rounding claims);
* instants (both UTC timestamps and local datetimes) are integers counting
  seconds; `datetime.timestamp` and `datetime.fromtimestamp` are the identity
  in this frame, and `timedelta(hours=Config.LOCAL_TIMESHIFT)` is the constant
  `shiftSeconds`;
* Python dicts keyed by ints appear as insertion-ordered association lists
  (assignment to an existing key updates in place, a new key is appended,
  deletion removes the entry), matching Python dict iteration order.
-/

namespace MT5

/-- Config.LOCAL_TIMESHIFT (hours), from src/config/settings.py. -/
def LOCAL_TIMESHIFT : Int := 3

/-- The timeshift in seconds, as produced by timedelta(hours=Config.LOCAL_TIMESHIFT). -/
def shiftSeconds : Int := LOCAL_TIMESHIFT * 3600

/-- One MT5 history deal record (the fields the core reads).
`type`: 0 = Buy, 1 = Sell, 2 = BalanceChange. `entry`: 0 = In, 1 = Out.
`deal` is the ticket number used as sort tie-break. -/
structure Deal where
  position_id : Int
  deal : Int
  time : Int
  type : Int
  entry : Int
  symbol : String
  magic : Int
  volume : ℚ
  price : ℚ
  profit : ℚ
  commission : ℚ
  swap : ℚ
deriving Repr, DecidableEq

/-! ## Balance-at-time calculator (MT5Calculator.calculate_balance_at_date) -/

/-- The amount one deal adds to the running balance in
calculate_balance_at_date: balance-change deals (type == 2) add profit only,
all other deals add profit + commission + swap. -/
def dealContribution (d : Deal) : ℚ :=
  if d.type = 2 then d.profit else d.profit + d.commission + d.swap

/-- Comparison used by sorted(deals, key=lambda x: x.time). -/
def timeLE : Deal → Deal → Prop := fun a b => a.time ≤ b.time

instance : DecidableRel timeLE := fun a b => inferInstanceAs (Decidable (a.time ≤ b.time))

instance : IsTotal Deal timeLE := ⟨fun a b => Int.le_total a.time b.time⟩

instance : IsTrans Deal timeLE := ⟨fun _ _ _ hab hbc => le_trans hab hbc⟩

/-- sorted(deals, key=lambda x: x.time). -/
def sortByTime (l : List Deal) : List Deal := l.insertionSort timeLE

/-- Local midnight of the day containing local instant t
(datetime.replace with hour=0, minute=0, second=0). -/
def startOfDaySec (t : Int) : Int := t - t.emod 86400

/-- The target local datetime after the boundary-mode adjustment:
exact instant, or day start 00:00:00, or day end 23:59:59. -/
def targetDateTime (t : Int) (end_of_day use_exact_time : Bool) : Int :=
  if use_exact_time then t
  else if end_of_day then startOfDaySec t + 86399
  else startOfDaySec t

/-- target_timestamp: the adjusted local datetime shifted by
timedelta(hours=Config.LOCAL_TIMESHIFT) (the source ADDS the shift here). -/
def targetTimestamp (t : Int) (end_of_day use_exact_time : Bool) : Int :=
  targetDateTime t end_of_day use_exact_time + shiftSeconds

/-- The accumulation loop of calculate_balance_at_date: walk the sorted list,
break at the first deal past the target, otherwise add its contribution. -/
def accumulateDeals (target : Int) : List Deal → ℚ → ℚ
  | [], bal => bal
  | d :: rest, bal =>
    if target < d.time then bal
    else accumulateDeals target rest (bal + dealContribution d)

/-- MT5Calculator.calculate_balance_at_date. `initial_balance = none` models
the Python default None (treated as 0.0); an empty deal list returns the
initial balance unchanged. -/
def calculate_balance_at_date (target_date : Int) (deals : List Deal)
    (initial_balance : Option ℚ) (end_of_day use_exact_time : Bool) : ℚ :=
  if deals = [] then initial_balance.getD 0
  else
    accumulateDeals (targetTimestamp target_date end_of_day use_exact_time)
      (sortByTime deals) (initial_balance.getD 0)

/-! ## Ordered-dict primitives

Python dicts keyed by ints (or key tuples) modelled as insertion-ordered
association lists: assignment to a fresh key appends, assignment to an
existing key updates in place, `del` removes the entry. -/

/-- Dict lookup (first matching key; keys are unique by construction). -/
def alookup {α β : Type} [DecidableEq α] (k : α) : List (α × β) → Option β
  | [] => none
  | (k', v) :: rest => if k' = k then some v else alookup k rest

/-- `d[k] = d.get(k, 0.0) + v`: update in place, or append a fresh entry. -/
def bump {α : Type} [DecidableEq α] (k : α) (v : ℚ) : List (α × ℚ) → List (α × ℚ)
  | [] => [(k, v)]
  | (k', v') :: rest => if k' = k then (k', v' + v) :: rest else (k', v') :: bump k v rest

/-- In-place update of the value at an existing key. -/
def setKey {α β : Type} [DecidableEq α] (k : α) (f : β → β) : List (α × β) → List (α × β)
  | [] => []
  | (k', v) :: rest => if k' = k then (k', f v) :: rest else (k', v) :: setKey k f rest

/-- `del d[k]` (keys are unique, so dropping every entry at k is the same as
dropping the one entry). -/
def eraseKey {α β : Type} [DecidableEq α] (k : α) (m : List (α × β)) : List (α × β) :=
  m.filter (fun e => e.1 ≠ k)

/-! ## Magic resolver and profit aggregator (MT5Calculator.calculate_by_magics) -/

/-- The inline magic-resolution loop: a deal with magic 0 borrows the magic of
the first deal in the snapshot sharing its position_id with a non-zero magic,
else stays 0; a non-zero magic is returned unchanged. -/
def resolveMagic (all_deals : List Deal) (d : Deal) : Int :=
  if d.magic = 0 then
    match all_deals.find? (fun x => x.position_id = d.position_id ∧ x.magic ≠ 0) with
    | some x => x.magic
    | none => 0
  else d.magic

/-- The (magic, group_id) assignment stream produced by iterating
magic_groups.items() and their member lists in order. -/
def magicToGroupPairs (groups : List (Int × List Int)) : List (Int × Int) :=
  groups.flatMap (fun g => g.2.map (fun m => (m, g.1)))

/-- Last-wins dict built from an assignment stream (later assignments to the
same key overwrite earlier ones). -/
def lastAssign (pairs : List (Int × Int)) (m : Int) : Option Int :=
  ((pairs.filter (fun p => p.1 = m)).getLast?).map (fun p => p.2)

/-- display_key: the resolved magic, replaced by its group id when grouping is
enabled and the magic belongs to a group. -/
def displayKey (all_deals : List Deal) (groups : Option (List (Int × List Int)))
    (d : Deal) : Int :=
  let mk := resolveMagic all_deals d
  match groups with
  | none => mk
  | some gs =>
    if gs = [] then mk
    else
      match lastAssign (magicToGroupPairs gs) mk with
      | some gid => gid
      | none => mk

/-- Whether the aggregation loop processes a deal: not a BalanceChange
(type == 2), and the local deal time (UTC minus the shift) inside the
optional [from_date, to_date] window. -/
def aggProcessed (from_date to_date : Option Int) (d : Deal) : Bool :=
  if d.type = 2 then false
  else
    let deal_time := d.time - shiftSeconds
    (match from_date with | none => true | some f => decide (¬ deal_time < f)) &&
    (match to_date with | none => true | some t => decide (¬ t < deal_time))

/-- The per-deal amount accumulated by the aggregator. -/
def aggProfit (d : Deal) : ℚ := d.profit + d.commission + d.swap

/-- The three accumulators of the aggregation loop. -/
structure AggState where
  byKeySymbol : List ((Int × String) × ℚ)
  summ : ℚ
  totalByMagic : List (Int × ℚ)
deriving Repr, DecidableEq

/-- One iteration of the aggregation loop over `process`, resolving magics
against the full snapshot `all_deals`. -/
def aggStep (all_deals : List Deal) (symbol : Option String)
    (from_date to_date : Option Int) (groups : Option (List (Int × List Int)))
    (st : AggState) (d : Deal) : AggState :=
  if aggProcessed from_date to_date d then
    let dk := displayKey all_deals groups d
    let sk := match symbol with | none => d.symbol | some s => s
    { byKeySymbol := bump (dk, sk) (aggProfit d) st.byKeySymbol,
      summ := st.summ + aggProfit d,
      totalByMagic := bump dk (aggProfit d) st.totalByMagic }
  else st

/-- The aggregation loop folded over a processing list. -/
def aggLoop (all_deals : List Deal) (symbol : Option String)
    (from_date to_date : Option Int) (groups : Option (List (Int × List Int)))
    (process : List Deal) : AggState :=
  process.foldl (aggStep all_deals symbol from_date to_date groups) ⟨[], 0, []⟩

/-- Result of calculate_by_magics. In Python this is one dict holding
(key, symbol) tuple keys plus the string keys "Summ", "Summ only magics"
(present conditionally) and "Total by Magic"; here the parts are fields. -/
structure AggregateResult where
  byKeySymbol : List ((Int × String) × ℚ)
  summ : ℚ
  summOnlyMagics : Option ℚ
  totalByMagic : List (Int × ℚ)
deriving Repr, DecidableEq

/-- Postprocessing after the loop: "Summ" is always set; "Summ only magics"
is set exactly when magic_total_sums is non-empty and holds key 0
(both subsumed by a successful lookup). -/
def mkAggResult (st : AggState) : AggregateResult :=
  { byKeySymbol := st.byKeySymbol,
    summ := st.summ,
    summOnlyMagics :=
      match alookup 0 st.totalByMagic with
      | some z => some (st.summ - z)
      | none => none,
    totalByMagic := st.totalByMagic }

/-- MT5Calculator.calculate_by_magics (src/mt5/mt5_client.py). -/
def calculate_by_magics (deals : List Deal) (symbol : Option String)
    (from_date to_date : Option Int)
    (magic_groups : Option (List (Int × List Int))) : AggregateResult :=
  mkAggResult (aggLoop deals symbol from_date to_date magic_groups deals)

/-- Processing predicate of the calculate_profits_dashbords.py variant:
deal.time (raw UTC) is compared against the window bounds directly. -/
def aggProcessedDash (from_date to_date : Option Int) (d : Deal) : Bool :=
  if d.type = 2 then false
  else
    (match from_date with | none => true | some f => decide (¬ d.time < f)) &&
    (match to_date with | none => true | some t => decide (¬ t < d.time))

/-- One iteration of the calculate_profits_dashbords.py loop (no grouping). -/
def aggStepDash (all_deals : List Deal) (symbol : Option String)
    (from_date to_date : Option Int) (st : AggState) (d : Deal) : AggState :=
  if aggProcessedDash from_date to_date d then
    let dk := resolveMagic all_deals d
    let sk := match symbol with | none => d.symbol | some s => s
    { byKeySymbol := bump (dk, sk) (aggProfit d) st.byKeySymbol,
      summ := st.summ + aggProfit d,
      totalByMagic := bump dk (aggProfit d) st.totalByMagic }
  else st

/-- The calculate_profits_dashbords.py loop folded over a processing list. -/
def aggLoopDash (all_deals : List Deal) (symbol : Option String)
    (from_date to_date : Option Int) (process : List Deal) : AggState :=
  process.foldl (aggStepDash all_deals symbol from_date to_date) ⟨[], 0, []⟩

/-- calculate_by_magics (calculate_profits_dashbords.py). -/
def calculate_by_magics_dash (deals : List Deal) (symbol : Option String)
    (from_date to_date : Option Int) : AggregateResult :=
  mkAggResult (aggLoopDash deals symbol from_date to_date deals)

/-- ValidationUtils.validate_date_range (src/utils/helpers.py). -/
def validate_date_range (from_date to_date : Int) : Bool := from_date ≤ to_date

/-! ## Position reconstructor (MT5Calculator.get_positions_timeline) -/

/-- One tracked open position: the per-position dict kept in
positions_at_start / current_positions. -/
structure PosState where
  position_id : Int
  symbol : String
  direction : String
  volume : ℚ
  price_open : ℚ
  magic : Int
  total_volume : ℚ
  total_price_volume : ℚ
deriving Repr, DecidableEq

/-- One emitted position dict (symbol, direction, volume, price_open, magic);
the emitted volume field is the tracked total_volume. -/
structure Position where
  symbol : String
  direction : String
  volume : ℚ
  price_open : ℚ
  magic : Int
deriving Repr, DecidableEq

/-- One emitted timeline Period; time_out stays None until the next pool
change (or the final forcing to to_date) closes it. -/
structure Period where
  positions : List Position
  time_in : Int
  time_out : Option Int
  balance : ℚ
deriving Repr, DecidableEq

def emitPosition (p : PosState) : Position :=
  { symbol := p.symbol, direction := p.direction, volume := p.total_volume,
    price_open := p.price_open, magic := p.magic }

def emitPositions (m : List (Int × PosState)) : List Position :=
  m.map (fun e => emitPosition e.2)

/-- position_id_to_magic: built over the trading deals with
`if deal.position_id != 0 and deal.magic != 0: map[pid] = magic`
(dict assignment, so the LAST such deal wins). -/
def posMagicLookup (trading : List Deal) (pid : Int) : Option Int :=
  ((trading.filter (fun d => d.position_id = pid ∧ d.position_id ≠ 0 ∧ d.magic ≠ 0)).getLast?).map
    (fun d => d.magic)

/-- The magic recorded on a freshly created position: the deal's own magic,
replaced via position_id_to_magic when it is 0 and the map knows the pid. -/
def resolvePosMagic (trading : List Deal) (d : Deal) : Int :=
  if d.magic = 0 then
    match posMagicLookup trading d.position_id with
    | some m => m
    | none => d.magic
  else d.magic

/-- The dict created for a brand-new position. -/
def newPosState (trading : List Deal) (d : Deal) : PosState :=
  { position_id := d.position_id, symbol := d.symbol,
    direction := if d.type = 0 then "Buy" else "Sell",
    volume := |d.volume|, price_open := d.price,
    magic := resolvePosMagic trading d,
    total_volume := |d.volume|, total_price_volume := d.price * |d.volume| }

/-- Membership of a position_id in relevant_position_ids: some deal carries
the pid and either its own magic is filtered, or the pid resolves through
position_id_to_magic to a filtered magic. -/
def relevantPid (trading : List Deal) (magics : List Int) (pid : Int) : Bool :=
  trading.any fun d =>
    decide (d.position_id = pid) &&
      (magics.contains d.magic ||
        (decide (pid ≠ 0) &&
          match posMagicLookup trading pid with
          | some m => magics.contains m
          | none => false))

/-- sorted(key=lambda x: (x.time, x.deal)): lexicographic order on
(time, ticket), the tie-break for same-second deals. -/
def timeDealLE : Deal → Deal → Prop := fun a b =>
  a.time < b.time ∨ (a.time = b.time ∧ a.deal ≤ b.deal)

instance : DecidableRel timeDealLE := fun a b =>
  inferInstanceAs (Decidable (a.time < b.time ∨ (a.time = b.time ∧ a.deal ≤ b.deal)))

instance : IsTotal Deal timeDealLE :=
  ⟨fun a b => by
    unfold timeDealLE
    rcases lt_trichotomy a.time b.time with h | h | h
    · exact Or.inl (Or.inl h)
    · rcases Int.le_total a.deal b.deal with hd | hd
      · exact Or.inl (Or.inr ⟨h, hd⟩)
      · exact Or.inr (Or.inr ⟨h.symm, hd⟩)
    · exact Or.inr (Or.inl h)⟩

instance : IsTrans Deal timeDealLE :=
  ⟨fun a b c hab hbc => by
    unfold timeDealLE at hab hbc ⊢
    rcases hab with h1 | ⟨h1, h1d⟩ <;> rcases hbc with h2 | ⟨h2, h2d⟩
    · exact Or.inl (lt_trans h1 h2)
    · exact Or.inl (h2 ▸ h1)
    · exact Or.inl (h1 ▸ h2)
    · exact Or.inr ⟨h1.trans h2, le_trans h1d h2d⟩⟩

def sortTimeline (l : List Deal) : List Deal := l.insertionSort timeDealLE

/-- One deal of the pre-window replay (building positions_at_start):
opening deals create or grow a position, closing deals shrink it and delete
it at total_volume ≤ 0; the volume and price fields of a partially closed
position are left untouched. -/
def startStep (trading : List Deal) (m : List (Int × PosState)) (d : Deal) :
    List (Int × PosState) :=
  if d.position_id = 0 then m
  else if d.entry = 0 then
    match alookup d.position_id m with
    | none => m ++ [(d.position_id, newPosState trading d)]
    | some _ =>
      setKey d.position_id (fun pos =>
        let tv := pos.total_volume + |d.volume|
        let tpv := pos.total_price_volume + d.price * |d.volume|
        { pos with total_volume := tv, total_price_volume := tpv,
                   price_open := tpv / tv }) m
  else if d.entry = 1 then
    match alookup d.position_id m with
    | some pos =>
      if pos.total_volume - |d.volume| ≤ 0 then eraseKey d.position_id m
      else
        setKey d.position_id (fun pos =>
          { pos with total_volume := pos.total_volume - |d.volume| }) m
    | none => m
  else m

/-- The pre-window replay: walk the sorted relevant deals, breaking at the
first deal with time ≥ from_timestamp. -/
def buildStartPositions (trading : List Deal) (fromTs : Int) :
    List Deal → List (Int × PosState) → List (Int × PosState)
  | [], m => m
  | d :: rest, m =>
    if fromTs ≤ d.time then m
    else buildStartPositions trading fromTs rest (startStep trading m d)

/-- The copy from positions_at_start into current_positions, setting the
volume field to total_volume. -/
def initCurrent (m : List (Int × PosState)) : List (Int × PosState) :=
  m.map (fun e => (e.1, { e.2 with volume := e.2.total_volume }))

/-- The in-window replay state: the open-position pool, the running balance
and the timeline built so far, newest Period first. -/
structure TimelineState where
  current_positions : List (Int × PosState)
  current_balance : ℚ
  timeline_rev : List Period
deriving Repr, DecidableEq

/-- `timeline[-1]['time_out'] = t` on the newest-first list. -/
def setHeadTimeOut (t : Int) : List Period → List Period
  | [] => []
  | p :: rest => { p with time_out := some t } :: rest

/-- `timeline[-1]['balance'] = b` on the newest-first list. -/
def setHeadBalance (b : ℚ) : List Period → List Period
  | [] => []
  | p :: rest => { p with balance := b } :: rest

/-- The pool effect and balance change of one in-window deal:
(positions_changed, balance_change, updated pool). Opening deals contribute
swap only; a close with volume > 0 on an open position contributes
profit + swap + commission*2 (double commission) and shrinks or deletes the
position; a zero-volume out on an open position, or any out on a missing
position, contributes swap and leaves the pool alone. -/
def dealEffect (trading : List Deal) (pool : List (Int × PosState)) (d : Deal) :
    Bool × ℚ × List (Int × PosState) :=
  if d.entry = 0 then
    match alookup d.position_id pool with
    | none =>
      (true, d.swap, pool ++ [(d.position_id, newPosState trading d)])
    | some _ =>
      (true, d.swap,
        setKey d.position_id (fun pos =>
          let tv := pos.total_volume + |d.volume|
          let tpv := pos.total_price_volume + d.price * |d.volume|
          { pos with total_volume := tv, total_price_volume := tpv,
                     price_open := tpv / tv, volume := tv }) pool)
  else if d.entry = 1 then
    match alookup d.position_id pool with
    | some pos =>
      if 0 < |d.volume| then
        if pos.total_volume - |d.volume| ≤ 0 then
          (true, d.profit + d.swap + d.commission * 2, eraseKey d.position_id pool)
        else
          (true, d.profit + d.swap + d.commission * 2,
            setKey d.position_id (fun pos =>
              { pos with total_volume := pos.total_volume - |d.volume|,
                         volume := pos.total_volume - |d.volume| }) pool)
      else (false, d.swap, pool)
    | none => (false, d.swap, pool)
  else (false, 0, pool)

/-- Folding one deal's effect into the state: a changed pool closes the
current Period at the deal's local time and opens a new one carrying the
accumulated balance; an unchanged pool with a non-zero balance change
updates the current Period's balance in place. -/
def applyEffect (st : TimelineState) (deal_time_local : Int)
    (r : Bool × ℚ × List (Int × PosState)) : TimelineState :=
  let newBalance := st.current_balance + r.2.1
  if r.1 then
    { current_positions := r.2.2,
      current_balance := newBalance,
      timeline_rev :=
        { positions := emitPositions r.2.2, time_in := deal_time_local,
          time_out := none, balance := newBalance }
          :: setHeadTimeOut deal_time_local st.timeline_rev }
  else if r.2.1 ≠ 0 ∧ st.timeline_rev ≠ [] then
    { st with current_balance := newBalance,
              timeline_rev := setHeadBalance newBalance st.timeline_rev }
  else
    { st with current_balance := newBalance }

/-- The body of the in-window loop for one deal (deals with position_id 0
are skipped). -/
def processDeal (trading : List Deal) (st : TimelineState) (d : Deal) : TimelineState :=
  if d.position_id = 0 then st
  else applyEffect st (d.time - shiftSeconds) (dealEffect trading st.current_positions d)

/-- The in-window loop: deals before from_timestamp are skipped (continue),
the first deal past to_timestamp breaks out of the sorted list. -/
def replayDeals (trading : List Deal) (fromTs toTs : Int) (st : TimelineState) :
    List Deal → TimelineState
  | [] => st
  | d :: rest =>
    if d.time < fromTs then replayDeals trading fromTs toTs st rest
    else if toTs < d.time then st
    else replayDeals trading fromTs toTs (processDeal trading st d) rest

/-- MT5Calculator.get_positions_timeline: reconstructs the ordered Period
timeline of [from_date, to_date] (local instants) for the filtered magics. -/
def get_positions_timeline (from_date to_date : Int) (magics : List Int)
    (deals : List Deal) : List Period :=
  let fromTs := from_date - shiftSeconds
  let toTs := to_date - shiftSeconds
  let trading := deals.filter (fun d => d.type ≠ 2)
  let relevant := trading.filter (fun d => relevantPid trading magics d.position_id)
  let sorted := sortTimeline relevant
  let startPos := buildStartPositions trading fromTs sorted []
  let current := initCurrent startPos
  let initial_balance := calculate_balance_at_date from_date deals none false true
  let st0 : TimelineState :=
    { current_positions := current, current_balance := initial_balance,
      timeline_rev := [{ positions := emitPositions current, time_in := from_date,
                         time_out := none, balance := initial_balance }] }
  let stF := replayDeals trading fromTs toTs st0 sorted
  (setHeadTimeOut to_date stF.timeline_rev).reverse

/-! ## Timeline chain predicates (for the continuity claim) -/

/-- Consecutive Periods are linked front-to-back:
each period's time_out is the next period's time_in. -/
def chainedFwd : List Period → Prop
  | [] => True
  | [_] => True
  | p :: q :: rest => p.time_out = some q.time_in ∧ chainedFwd (q :: rest)

/-- The same chain on a newest-first list: each older period's time_out is
the time_in of the period just newer than it. -/
def chainedRev : List Period → Prop
  | [] => True
  | [_] => True
  | p :: q :: rest => q.time_out = some p.time_in ∧ chainedRev (q :: rest)

/-- Every tracked position in a pool has strictly positive net volume. -/
def poolVolumesPos (m : List (Int × PosState)) : Prop :=
  ∀ e ∈ m, 0 < e.2.total_volume

/-- Every position of every emitted Period has strictly positive volume. -/
def allVolumesPos (l : List Period) : Prop :=
  ∀ p ∈ l, ∀ q ∈ p.positions, 0 < q.volume

/-! ## Concrete inputs for witnesses and counterexamples

Window: local [10800, 110800], i.e. UTC [0, 100000] after the 3-hour shift.
Field order of Deal: position_id, deal, time, type, entry, symbol, magic,
volume, price, profit, commission, swap. -/

def exFrom : Int := 10800

def exTo : Int := 110800

/-- Round trip, opening leg: 1 lot Buy at price 1, commission -2. -/
def dealOpen : Deal := ⟨1, 10, 50000, 0, 0, "EURUSD", 7, 1, 1, 0, -2, 0⟩

/-- Round trip, closing leg: profit 10, swap -1, commission -2. -/
def dealClose : Deal := ⟨1, 11, 60000, 0, 1, "EURUSD", 7, 1, 2, 10, -2, -1⟩

/-- entry=Out with volume 1 on a position that was never opened. -/
def dealOrphanOut : Deal := ⟨2, 12, 50000, 0, 1, "EURUSD", 7, 1, 1, 10, -2, 0⟩

/-- entry=In deal with volume 0. -/
def dealZeroVol : Deal := ⟨4, 13, 50000, 0, 0, "EURUSD", 7, 0, 1, 0, 0, 0⟩

/-- Partial-close scenario: open 2 lots at 100 ... -/
def dealIn100 : Deal := ⟨3, 20, 50000, 0, 0, "EURUSD", 7, 2, 100, 0, 0, 0⟩

/-- ... close 1 of them ... -/
def dealOutHalf : Deal := ⟨3, 21, 60000, 0, 1, "EURUSD", 7, 1, 110, 5, 0, 0⟩

/-- ... then open another lot at 200. -/
def dealIn200 : Deal := ⟨3, 22, 70000, 0, 0, "EURUSD", 7, 1, 200, 0, 0, 0⟩

/-- Position-id reuse: open 1 lot ... -/
def dealReopenIn : Deal := ⟨6, 30, 50000, 0, 0, "EURUSD", 7, 1, 1, 0, 0, 0⟩

/-- ... close it fully ... -/
def dealReopenOut : Deal := ⟨6, 31, 60000, 0, 1, "EURUSD", 7, 1, 1, 0, 0, 0⟩

/-- ... then reopen the same position_id. -/
def dealReopenIn2 : Deal := ⟨6, 32, 70000, 0, 0, "EURUSD", 7, 1, 1, 0, 0, 0⟩

/-- Deal with magic 0 awaiting resolution (profit 1). -/
def dealMagic0 : Deal := ⟨5, 40, 50000, 0, 0, "EURUSD", 0, 1, 1, 1, 0, 0⟩

/-- Sibling of dealMagic0 carrying magic 77 (profit 2). -/
def dealMagic77 : Deal := ⟨5, 41, 60000, 0, 1, "EURUSD", 77, 1, 1, 2, 0, 0⟩

/-- Zero-volume entry=Out swap tick (swap -3) on position 1. -/
def dealSwapTick : Deal := ⟨1, 14, 65000, 0, 1, "EURUSD", 7, 0, 1, 0, 0, -3⟩

/-- A sample deal used to instantiate hypothesis-bearing theorems. -/
def sampleDeal : Deal :=
  { position_id := 1, deal := 10, time := 50000, type := 0, entry := 0,
    symbol := "EURUSD", magic := 7, volume := 1, price := 1,
    profit := 0, commission := -2, swap := 0 }

/-- A tracked open position: 1 lot Buy at 1 on position 1, magic 7. -/
def examplePos : PosState := ⟨1, "EURUSD", "Buy", 1, 1, 7, 1, 1⟩

/-- A mid-replay state: position 1 open, balance 0, one open Period. -/
def exState : TimelineState :=
  { current_positions := [(1, examplePos)],
    current_balance := 0,
    timeline_rev := [{ positions := [emitPosition examplePos], time_in := 39200,
                       time_out := none, balance := 0 }] }

/-! ### Characterization: the replay equals a filtered sum -/

theorem accumulateDeals_eq_takeWhile (target : Int) (l : List Deal) (bal : ℚ) :
    accumulateDeals target l bal
      = bal + ((l.takeWhile (fun d => d.time ≤ target)).map dealContribution).sum := by
  induction l generalizing bal with
  | nil => simp [accumulateDeals]
  | cons d rest ih =>
    by_cases h : target < d.time
    · have hd : (fun d : Deal => decide (d.time ≤ target)) d = false := by
        simp [decide_eq_false_iff_not]; omega
      simp only [accumulateDeals, if_pos h, List.takeWhile_cons]
      simp [hd]
    · have hd : (fun d : Deal => decide (d.time ≤ target)) d = true := by
        simp [decide_eq_true_eq]; omega
      simp only [accumulateDeals, if_neg h, List.takeWhile_cons, hd]
      rw [ih]
      simp [List.map_cons, List.sum_cons]
      ring

theorem takeWhile_time_eq_filter_of_sorted (target : Int) (l : List Deal)
    (hs : List.Sorted timeLE l) :
    l.takeWhile (fun d => d.time ≤ target) = l.filter (fun d => d.time ≤ target) := by
  induction l with
  | nil => rfl
  | cons d rest ih =>
    rcases List.sorted_cons.mp hs with ⟨hall, hrest⟩
    by_cases h : d.time ≤ target
    · simp only [List.takeWhile_cons, List.filter_cons]
      simp [h, ih hrest]
    · have hrest_nil : rest.filter (fun d => decide (d.time ≤ target)) = [] := by
        rw [List.filter_eq_nil_iff]
        intro x hx
        have := hall x hx
        simp only [timeLE] at this
        simp [decide_eq_true_eq]
        omega
      simp only [List.takeWhile_cons, List.filter_cons]
      simp [h, hrest_nil]

/-- calculate_balance_at_date with no initial balance is exactly the sum of
contributions of the deals at or before the (shifted) target instant. -/
theorem calculate_balance_at_date_eq_filter_sum (t : Int) (deals : List Deal)
    (eod exact : Bool) :
    calculate_balance_at_date t deals none eod exact
      = ((deals.filter (fun d => d.time ≤ targetTimestamp t eod exact)).map
          dealContribution).sum := by
  unfold calculate_balance_at_date
  by_cases hnil : deals = []
  · subst hnil; simp
  · rw [if_neg hnil]
    rw [accumulateDeals_eq_takeWhile]
    unfold sortByTime
    rw [takeWhile_time_eq_filter_of_sorted _ _ (List.sorted_insertionSort timeLE deals)]
    have hperm : List.Perm (deals.insertionSort timeLE) deals :=
      List.perm_insertionSort timeLE deals
    have hsum := ((hperm.filter (fun d => d.time ≤ targetTimestamp t eod exact)).map
      dealContribution).sum_eq
    rw [hsum]
    simp

theorem sum_filter_split (f : Deal → ℚ) (p q : Deal → Bool) (l : List Deal) :
    ((l.filter p).map f).sum
      = ((l.filter (fun d => p d && q d)).map f).sum
        + ((l.filter (fun d => p d && !q d)).map f).sum := by
  induction l with
  | nil => simp
  | cons d rest ih =>
    simp only [List.filter_cons]
    cases hp : p d <;> cases hq : q d <;>
      simp [hp, hq, List.map_cons, List.sum_cons, ih] <;> ring

/-- C6: for two target instants t1 < t2 evaluated in exact-instant mode,
the difference of calculate_balance_at_date values equals the sum of
contributions (profit for BalanceChange deals, profit + commission + swap
otherwise) of the deals whose time t satisfies target(t1) < t ≤ target(t2):
deals at exactly the target instant are included, since the comparison
against the target is ≤. -/
theorem balance_replay_additive (deals : List Deal) (t1 t2 : Int) (e1 e2 : Bool)
    (h : t1 < t2) :
    calculate_balance_at_date t2 deals none e2 true
        - calculate_balance_at_date t1 deals none e1 true
      = ((deals.filter (fun d =>
            targetTimestamp t1 e1 true < d.time ∧ d.time ≤ targetTimestamp t2 e2 true)).map
          dealContribution).sum := by
  have hT : targetTimestamp t1 e1 true ≤ targetTimestamp t2 e2 true := by
    simp only [targetTimestamp, targetDateTime, if_pos]
    omega
  rw [calculate_balance_at_date_eq_filter_sum, calculate_balance_at_date_eq_filter_sum]
  rw [sum_filter_split dealContribution
    (fun d => d.time ≤ targetTimestamp t2 e2 true)
    (fun d => d.time ≤ targetTimestamp t1 e1 true) deals]
  have h1 : deals.filter (fun d =>
      decide (d.time ≤ targetTimestamp t2 e2 true)
        && decide (d.time ≤ targetTimestamp t1 e1 true))
      = deals.filter (fun d => d.time ≤ targetTimestamp t1 e1 true) := by
    apply List.filter_congr
    intro x _
    by_cases hx : x.time ≤ targetTimestamp t1 e1 true
    · have : x.time ≤ targetTimestamp t2 e2 true := le_trans hx hT
      simp [hx, this]
    · simp [hx]
  have h2 : deals.filter (fun d =>
      decide (d.time ≤ targetTimestamp t2 e2 true)
        && !decide (d.time ≤ targetTimestamp t1 e1 true))
      = deals.filter (fun d =>
          targetTimestamp t1 e1 true < d.time ∧ d.time ≤ targetTimestamp t2 e2 true) := by
    apply List.filter_congr
    intro x _
    by_cases hx2 : x.time ≤ targetTimestamp t2 e2 true <;>
      by_cases hx1 : targetTimestamp t1 e1 true < x.time <;>
        simp [hx2, hx1] <;> omega
  rw [h1, h2]
  ring

/-! ## Aggregator lemmas and claims C4, C5, C10 -/

theorem aggLoop_skips_type2 (A : List Deal) (s : Option String) (f t : Option Int)
    (g : Option (List (Int × List Int))) (l : List Deal) (st : AggState) :
    l.foldl (aggStep A s f t g) st
      = (l.filter (fun d => d.type ≠ 2)).foldl (aggStep A s f t g) st := by
  induction l generalizing st with
  | nil => rfl
  | cons d rest ih =>
    by_cases h2 : d.type = 2
    · have hskip : aggStep A s f t g st d = st := by
        simp [aggStep, aggProcessed, h2]
      simp [List.foldl_cons, List.filter_cons, h2, hskip, ih]
    · simp [List.foldl_cons, List.filter_cons, h2, ih]

theorem aggLoopDash_skips_type2 (A : List Deal) (s : Option String) (f t : Option Int)
    (l : List Deal) (st : AggState) :
    l.foldl (aggStepDash A s f t) st
      = (l.filter (fun d => d.type ≠ 2)).foldl (aggStepDash A s f t) st := by
  induction l generalizing st with
  | nil => rfl
  | cons d rest ih =>
    by_cases h2 : d.type = 2
    · have hskip : aggStepDash A s f t st d = st := by
        simp [aggStepDash, aggProcessedDash, h2]
      simp [List.foldl_cons, List.filter_cons, h2, hskip, ih]
    · simp [List.foldl_cons, List.filter_cons, h2, ih]

/-- C4: BalanceChange deals (type == 2) contribute nothing to any output of
calculate_by_magics (either variant): the full result — every (key, symbol)
bucket, every per-key total and the grand total — is identical to the result
of running the aggregation loop over the deal list with all BalanceChange
deals removed (magic resolution still scans the full snapshot, which carries
no monetary contribution). -/
theorem balance_change_deals_excluded (deals : List Deal) (s : Option String)
    (f t : Option Int) (g : Option (List (Int × List Int))) :
    calculate_by_magics deals s f t g
        = mkAggResult (aggLoop deals s f t g (deals.filter (fun d => d.type ≠ 2)))
    ∧ calculate_by_magics_dash deals s f t
        = mkAggResult (aggLoopDash deals s f t (deals.filter (fun d => d.type ≠ 2))) := by
  constructor
  · unfold calculate_by_magics aggLoop
    rw [aggLoop_skips_type2]
  · unfold calculate_by_magics_dash aggLoopDash
    rw [aggLoopDash_skips_type2]

theorem find?_first_match (p : Deal → Bool) (l1 l2 : List Deal) (s : Deal)
    (h1 : ∀ x ∈ l1, p x = false) (hs : p s = true) :
    (l1 ++ s :: l2).find? p = some s := by
  induction l1 with
  | nil => simp [List.find?_cons, hs]
  | cons x l1' ih =>
    have hx := h1 x (by simp)
    simp only [List.cons_append, List.find?_cons, hx]
    exact ih (fun y hy => h1 y (by simp [hy]))

/-- C5: magic resolution. A deal with non-zero magic keeps its own magic; a
deal with magic 0 takes the magic of the FIRST deal in the snapshot (in
list order) sharing its position_id with non-zero magic; with no such
sibling it stays 0. Concretely, a magic-0 deal with a magic-77 sibling is
bucketed by calculate_by_magics under 77, not 0. -/
theorem magic_resolution (deals l1 l2 : List Deal) (d s : Deal) :
    (d.magic ≠ 0 → resolveMagic deals d = d.magic)
    ∧ (d.magic = 0 → deals = l1 ++ s :: l2 → s.position_id = d.position_id →
        s.magic ≠ 0 → (∀ x ∈ l1, ¬(x.position_id = d.position_id ∧ x.magic ≠ 0)) →
        resolveMagic deals d = s.magic)
    ∧ (d.magic = 0 → (∀ x ∈ deals, x.position_id = d.position_id → x.magic = 0) →
        resolveMagic deals d = 0)
    ∧ (calculate_by_magics [dealMagic0, dealMagic77] none none none none).totalByMagic
        = [(77, 3)] := by
  refine ⟨fun h0 => by simp [resolveMagic, h0], fun h0 hsplit hpid hmag hfirst => ?_,
    fun h0 hnone => ?_, ?_⟩
  · have hfind : deals.find?
        (fun x => decide (x.position_id = d.position_id ∧ x.magic ≠ 0)) = some s := by
      rw [hsplit]
      apply find?_first_match
      · intro x hx
        simp only [decide_eq_false_iff_not]
        exact hfirst x hx
      · simp only [decide_eq_true_eq]
        exact ⟨hpid, hmag⟩
    unfold resolveMagic
    rw [if_pos h0, hfind]
  · have hfind : deals.find?
        (fun x => decide (x.position_id = d.position_id ∧ x.magic ≠ 0)) = none := by
      rw [List.find?_eq_none]
      intro x hx
      simp only [decide_eq_true_eq, not_and, not_not]
      exact fun hp => hnone x hx hp
    unfold resolveMagic
    rw [if_pos h0, hfind]
  · norm_num [calculate_by_magics, aggLoop, aggStep, aggProcessed, aggProfit, mkAggResult,
      displayKey, resolveMagic, alookup, bump, shiftSeconds, LOCAL_TIMESHIFT,
      dealMagic0, dealMagic77, List.find?]

/-- Witness for C5: both resolution directions at concrete deals. -/
theorem magic_resolution_witness :
    resolveMagic [dealMagic0, dealMagic77] dealMagic77 = 77
    ∧ resolveMagic [dealMagic0, dealMagic77] dealMagic0 = 77 :=
  ⟨(magic_resolution [dealMagic0, dealMagic77] [] [] dealMagic77 dealMagic77).1
      (by decide),
    (magic_resolution [dealMagic0, dealMagic77] [dealMagic0] [] dealMagic0 dealMagic77).2.1
      rfl rfl rfl (by decide) (by decide)⟩

theorem alookup_bump_isSome {α : Type} [DecidableEq α] (k k' : α) (v : ℚ)
    (m : List (α × ℚ)) :
    (alookup k (bump k' v m)).isSome ↔ k' = k ∨ (alookup k m).isSome := by
  induction m with
  | nil =>
    by_cases h : k' = k <;> simp [bump, alookup, h]
  | cons e rest ih =>
    obtain ⟨ek, ev⟩ := e
    simp only [bump]
    by_cases h1 : ek = k'
    · subst h1
      simp only [if_pos rfl, alookup]
      by_cases h2 : ek = k <;> simp [h2]
    · rw [if_neg h1]
      simp only [alookup]
      by_cases h2 : ek = k
      · simp [h2]
      · simp [h2, ih]

theorem aggLoop_totalByMagic_key (A : List Deal) (s : Option String)
    (f t : Option Int) (g : Option (List (Int × List Int)))
    (process : List Deal) (st : AggState) (k : Int) :
    (alookup k (process.foldl (aggStep A s f t g) st).totalByMagic).isSome
      ↔ (alookup k st.totalByMagic).isSome
        ∨ ∃ d ∈ process, aggProcessed f t d = true ∧ displayKey A g d = k := by
  induction process generalizing st with
  | nil => simp
  | cons d rest ih =>
    rw [List.foldl_cons, ih]
    by_cases hp : aggProcessed f t d = true
    · have hstep : (aggStep A s f t g st d).totalByMagic
          = bump (displayKey A g d) (aggProfit d) st.totalByMagic := by
        simp [aggStep, hp]
      rw [hstep, alookup_bump_isSome]
      constructor
      · rintro ((hdk | hst) | ⟨x, hx, hpx, hkx⟩)
        · exact Or.inr ⟨d, List.mem_cons_self d rest, hp, hdk⟩
        · exact Or.inl hst
        · exact Or.inr ⟨x, List.mem_cons_of_mem d hx, hpx, hkx⟩
      · rintro (hst | ⟨x, hx, hpx, hkx⟩)
        · exact Or.inl (Or.inr hst)
        · rcases List.mem_cons.mp hx with rfl | hx'
          · exact Or.inl (Or.inl hkx)
          · exact Or.inr ⟨x, hx', hpx, hkx⟩
    · have hstep : aggStep A s f t g st d = st := by
        simp [aggStep, hp]
      rw [hstep]
      constructor
      · rintro (hst | ⟨x, hx, hpx, hkx⟩)
        · exact Or.inl hst
        · exact Or.inr ⟨x, List.mem_cons_of_mem d hx, hpx, hkx⟩
      · rintro (hst | ⟨x, hx, hpx, hkx⟩)
        · exact Or.inl hst
        · rcases List.mem_cons.mp hx with rfl | hx'
          · exact absurd hpx hp
          · exact Or.inr ⟨x, hx', hpx, hkx⟩

/-- C10: "Summ only magics" is present in the result exactly when some
processed deal was bucketed under key 0; when present its value is the grand
total "Summ" minus the key-0 total; "Summ" and "Total by Magic" are fields
of every result, the empty deal list giving 0 and an empty table. -/
theorem summ_only_magics_key (deals : List Deal) (s : Option String)
    (f t : Option Int) (g : Option (List (Int × List Int))) :
    ((calculate_by_magics deals s f t g).summOnlyMagics.isSome
        ↔ ∃ d ∈ deals, aggProcessed f t d = true ∧ displayKey deals g d = 0)
    ∧ (∀ v, (calculate_by_magics deals s f t g).summOnlyMagics = some v →
        ∃ z, alookup 0 (calculate_by_magics deals s f t g).totalByMagic = some z
          ∧ v = (calculate_by_magics deals s f t g).summ - z)
    ∧ calculate_by_magics [] s f t g = ⟨[], 0, none, []⟩ := by
  have hkey : (alookup 0 (aggLoop deals s f t g deals).totalByMagic).isSome
      ↔ ∃ d ∈ deals, aggProcessed f t d = true ∧ displayKey deals g d = 0 := by
    unfold aggLoop
    rw [aggLoop_totalByMagic_key]
    simp [alookup]
  have hform : (calculate_by_magics deals s f t g).summOnlyMagics
      = (match alookup 0 (aggLoop deals s f t g deals).totalByMagic with
          | some z => some ((aggLoop deals s f t g deals).summ - z)
          | none => none) := rfl
  refine ⟨?_, fun v hv => ?_, rfl⟩
  · rw [hform, ← hkey]
    cases halk : alookup 0 (aggLoop deals s f t g deals).totalByMagic <;> simp [halk]
  · rw [hform] at hv
    cases halk : alookup 0 (aggLoop deals s f t g deals).totalByMagic with
    | none => rw [halk] at hv; simp at hv
    | some z =>
      rw [halk] at hv
      simp only [Option.some.injEq] at hv
      exact ⟨z, halk, hv.symm⟩

/-- Witness for C10: a lone unresolvable magic-0 deal (profit 1) makes
"Summ only magics" present with value 1 - 1 = 0. -/
theorem summ_only_magics_key_witness :
    ∃ z, alookup 0 (calculate_by_magics [dealMagic0] none none none none).totalByMagic
        = some z
      ∧ (0 : ℚ) = (calculate_by_magics [dealMagic0] none none none none).summ - z :=
  (summ_only_magics_key [dealMagic0] none none none none).2.1 0
    (by norm_num [calculate_by_magics, aggLoop, aggStep, aggProcessed, aggProfit,
      mkAggResult, displayKey, resolveMagic, alookup, bump, dealMagic0, List.find?])

/-- Witness for C6 at concrete inputs: one deal at UTC time 50000,
targets 0 and 100000, shift 10800 seconds. -/
theorem balance_replay_additive_witness :
    calculate_balance_at_date 100000 [sampleDeal] none false true
        - calculate_balance_at_date 0 [sampleDeal] none false true
      = (([sampleDeal].filter (fun d =>
            targetTimestamp 0 false true < d.time ∧ d.time ≤ targetTimestamp 100000 false true)).map
          dealContribution).sum :=
  balance_replay_additive [sampleDeal] 0 100000 false false (by decide)

/-! ## Claim C3: empty / unmatched input -/

/-- C3 counterexample: on an empty deal list get_positions_timeline does NOT
return an empty timeline — it returns one Period spanning the whole window
with no positions and balance 0. -/
theorem empty_deals_timeline_counterexample :
    get_positions_timeline exFrom exTo [7] [] ≠ []
    ∧ get_positions_timeline exFrom exTo [7] [] = [⟨[], exFrom, some exTo, 0⟩] := by
  constructor
  · intro h
    exact absurd (congrArg List.length h) (by norm_num [get_positions_timeline,
      sortTimeline, relevantPid, buildStartPositions, initCurrent, emitPositions,
      replayDeals, setHeadTimeOut, calculate_balance_at_date, exFrom, exTo,
      shiftSeconds, LOCAL_TIMESHIFT, List.insertionSort])
  · norm_num [get_positions_timeline, sortTimeline, relevantPid, buildStartPositions,
      initCurrent, emitPositions, replayDeals, setHeadTimeOut, calculate_balance_at_date,
      exFrom, exTo, shiftSeconds, LOCAL_TIMESHIFT, List.insertionSort]

theorem relevant_filter_nil (deals : List Deal) (magics : List Int)
    (hm : ∀ d ∈ deals, d.magic ∉ magics) :
    (deals.filter (fun d => d.type ≠ 2)).filter
        (fun d => relevantPid (deals.filter (fun d => d.type ≠ 2)) magics d.position_id)
      = [] := by
  rw [List.filter_eq_nil_iff]
  intro d hd
  simp only [Bool.not_eq_true]
  unfold relevantPid
  rw [List.any_eq_false]
  intro x hx
  have hcx : magics.contains x.magic = false := by
    simpa using hm x (List.mem_of_mem_filter hx)
  have hcp : ∀ m, posMagicLookup (deals.filter (fun d => d.type ≠ 2)) d.position_id = some m →
      magics.contains m = false := by
    intro m hlk
    unfold posMagicLookup at hlk
    rcases Option.map_eq_some'.mp hlk with ⟨y, hy, hym⟩
    have hymem : y ∈ deals :=
      List.mem_of_mem_filter (List.mem_of_mem_filter (List.mem_of_mem_getLast? hy))
    simpa using hym ▸ hm y hymem
  cases hlk : posMagicLookup (deals.filter (fun d => d.type ≠ 2)) d.position_id with
  | none =>
    simp only [hlk]
    simp
    intro _
    simpa using hcx
  | some m =>
    simp only [hlk]
    simp
    intro _
    exact ⟨by simpa using hcx, fun _ => by simpa using hcp m hlk⟩

/-- C3 amended: get_positions_timeline on an empty deal list, or on a list
with no deal matching the magic filter, returns a single Period covering
[from_date, to_date] with an empty position list (balance from
calculate_balance_at_date over the full list), not an empty timeline. -/
theorem unmatched_deals_single_period (from_date to_date : Int) (magics : List Int)
    (deals : List Deal) (hm : ∀ d ∈ deals, d.magic ∉ magics) :
    get_positions_timeline from_date to_date magics deals
      = [⟨[], from_date, some to_date,
          calculate_balance_at_date from_date deals none false true⟩] := by
  simp only [get_positions_timeline]
  rw [relevant_filter_nil deals magics hm]
  simp [sortTimeline, List.insertionSort, buildStartPositions, initCurrent,
    emitPositions, replayDeals, setHeadTimeOut]

/-- Witness for C3's amended claim: a magic-77 deal against filter [7]. -/
theorem unmatched_deals_single_period_witness :
    get_positions_timeline exFrom exTo [7] [dealMagic77]
      = [⟨[], exFrom, some exTo,
          calculate_balance_at_date exFrom [dealMagic77] none false true⟩] :=
  unmatched_deals_single_period exFrom exTo [7] [dealMagic77] (by decide)

/-! ## Claim C9: price_open after a partial close -/

/-- C9: the code bug. Open 2 lots at 100, close 1, open 1 more at 200: the
emitted price_open is 200, because the partial close leaves
total_price_volume untouched; the volume-weighted average entry price of the
opening deals contributing to the open volume (1 lot at 100 and 1 lot at
200) is 150. -/
theorem partial_close_price_open_bug :
    ((get_positions_timeline exFrom exTo [7] [dealIn100, dealOutHalf, dealIn200]).getLast?).map
        Period.positions
      = some [⟨"EURUSD", "Buy", 2, 200, 7⟩]
    ∧ (200 : ℚ) ≠ (1 * 100 + 1 * 200) / (1 + 1) := by
  constructor
  · norm_num [get_positions_timeline, sortTimeline, relevantPid, posMagicLookup,
      buildStartPositions, startStep, initCurrent, emitPositions, emitPosition, newPosState,
      resolvePosMagic, replayDeals, processDeal, dealEffect, applyEffect, alookup, setKey,
      eraseKey, setHeadTimeOut, setHeadBalance, calculate_balance_at_date, sortByTime,
      accumulateDeals, targetTimestamp, targetDateTime, startOfDaySec, dealContribution,
      exFrom, exTo, shiftSeconds, LOCAL_TIMESHIFT, List.insertionSort, List.orderedInsert,
      timeDealLE, timeLE, dealIn100, dealOutHalf, dealIn200]
  · norm_num

/-! ## Claim C8: window_start > window_end -/

/-- C8 counterexample: with from_date > to_date nothing is rejected:
validate_date_range (never called by the core operations) answers false,
get_positions_timeline returns a nonsensical Period with time_in > time_out,
and calculate_by_magics returns an empty aggregate. -/
theorem invalid_range_counterexample :
    validate_date_range exTo exFrom = false
    ∧ get_positions_timeline exTo exFrom [7] [dealOpen]
        = [⟨[⟨"EURUSD", "Buy", 1, 1, 7⟩], exTo, some exFrom, -2⟩]
    ∧ calculate_by_magics [dealOpen] none (some exTo) (some exFrom) none
        = ⟨[], 0, none, []⟩ := by
  refine ⟨by decide, ?_, ?_⟩
  · norm_num [get_positions_timeline, sortTimeline, relevantPid, posMagicLookup,
      buildStartPositions, startStep, initCurrent, emitPositions, emitPosition, newPosState,
      resolvePosMagic, replayDeals, processDeal, dealEffect, applyEffect, alookup, setKey,
      eraseKey, setHeadTimeOut, setHeadBalance, calculate_balance_at_date, sortByTime,
      accumulateDeals, targetTimestamp, targetDateTime, startOfDaySec, dealContribution,
      exFrom, exTo, shiftSeconds, LOCAL_TIMESHIFT, List.insertionSort, List.orderedInsert,
      timeDealLE, timeLE, dealOpen]
  · norm_num [calculate_by_magics, aggLoop, aggStep, aggProcessed, aggProfit, mkAggResult,
      displayKey, resolveMagic, alookup, bump, shiftSeconds, LOCAL_TIMESHIFT,
      dealOpen, exFrom, exTo]

/-! ## Claim C1 counterexample: entry=Out, volume > 0, position not open -/

/-- C1 counterexample: an entry=Out deal with volume 1 > 0 whose position was
never opened (profit 10, swap 0, commission -2). The claim's formula predicts
a balance change of profit + swap + 2*commission = 6; the code attributes
only swap = 0, so the timeline's only Period keeps balance 0. -/
theorem orphan_close_balance_counterexample :
    get_positions_timeline exFrom exTo [7] [dealOrphanOut] = [⟨[], exFrom, some exTo, 0⟩]
    ∧ dealOrphanOut.profit + dealOrphanOut.swap + 2 * dealOrphanOut.commission ≠ 0 := by
  constructor
  · norm_num [get_positions_timeline, sortTimeline, relevantPid, posMagicLookup,
      buildStartPositions, startStep, initCurrent, emitPositions, emitPosition, newPosState,
      resolvePosMagic, replayDeals, processDeal, dealEffect, applyEffect, alookup, setKey,
      eraseKey, setHeadTimeOut, setHeadBalance, calculate_balance_at_date, sortByTime,
      accumulateDeals, targetTimestamp, targetDateTime, startOfDaySec, dealContribution,
      exFrom, exTo, shiftSeconds, LOCAL_TIMESHIFT, List.insertionSort, List.orderedInsert,
      timeDealLE, timeLE, dealOrphanOut]
  · norm_num [dealOrphanOut]

/-! ## Claim C2: timeline continuity -/

theorem chainedRev_setHeadTimeOut (t : Int) (l : List Period) (h : chainedRev l) :
    chainedRev (setHeadTimeOut t l) := by
  match l with
  | [] => exact h
  | [p] => trivial
  | p :: q :: rest => exact ⟨h.1, h.2⟩

theorem chainedRev_setHeadBalance (b : ℚ) (l : List Period) (h : chainedRev l) :
    chainedRev (setHeadBalance b l) := by
  match l with
  | [] => exact h
  | [p] => trivial
  | p :: q :: rest => exact ⟨h.1, h.2⟩

theorem chainedRev_cons_new (t : Int) (l : List Period) (hne : l ≠ [])
    (h : chainedRev l) (newP : Period) (hti : newP.time_in = t) :
    chainedRev (newP :: setHeadTimeOut t l) := by
  match l with
  | [] => exact absurd rfl hne
  | p :: rest =>
    refine ⟨?_, chainedRev_setHeadTimeOut t _ h⟩
    rw [hti]

theorem revOK_applyEffect (st : TimelineState) (dt : Int)
    (r : Bool × ℚ × List (Int × PosState))
    (h1 : st.timeline_rev ≠ []) (h2 : chainedRev st.timeline_rev) :
    (applyEffect st dt r).timeline_rev ≠ []
    ∧ chainedRev (applyEffect st dt r).timeline_rev := by
  obtain ⟨changed, bc, m⟩ := r
  unfold applyEffect
  cases changed with
  | true =>
    simp only [if_pos]
    exact ⟨List.cons_ne_nil _ _, chainedRev_cons_new dt _ h1 h2 _ rfl⟩
  | false =>
    simp only [Bool.false_eq_true, if_false]
    by_cases hbc : bc ≠ 0 ∧ st.timeline_rev ≠ []
    · rw [if_pos hbc]
      constructor
      · match hl : st.timeline_rev with
        | [] => exact absurd hl h1
        | p :: rest => simp [setHeadBalance]
      · exact chainedRev_setHeadBalance _ _ h2
    · rw [if_neg hbc]
      exact ⟨h1, h2⟩

theorem revOK_processDeal (trading : List Deal) (st : TimelineState) (d : Deal)
    (h1 : st.timeline_rev ≠ []) (h2 : chainedRev st.timeline_rev) :
    (processDeal trading st d).timeline_rev ≠ []
    ∧ chainedRev (processDeal trading st d).timeline_rev := by
  unfold processDeal
  by_cases hpid : d.position_id = 0
  · rw [if_pos hpid]; exact ⟨h1, h2⟩
  · rw [if_neg hpid]
    exact revOK_applyEffect st _ _ h1 h2

theorem revOK_replayDeals (trading : List Deal) (fromTs toTs : Int)
    (st : TimelineState) (l : List Deal)
    (h1 : st.timeline_rev ≠ []) (h2 : chainedRev st.timeline_rev) :
    (replayDeals trading fromTs toTs st l).timeline_rev ≠ []
    ∧ chainedRev (replayDeals trading fromTs toTs st l).timeline_rev := by
  induction l generalizing st with
  | nil => exact ⟨h1, h2⟩
  | cons d rest ih =>
    unfold replayDeals
    by_cases ha : d.time < fromTs
    · rw [if_pos ha]; exact ih st h1 h2
    · rw [if_neg ha]
      by_cases hb : toTs < d.time
      · rw [if_pos hb]; exact ⟨h1, h2⟩
      · rw [if_neg hb]
        have hP := revOK_processDeal trading st d h1 h2
        exact ih _ hP.1 hP.2

theorem chainedFwd_append_single (xs : List Period) (p : Period) (h1 : chainedFwd xs)
    (h2 : ∀ q, xs.getLast? = some q → q.time_out = some p.time_in) :
    chainedFwd (xs ++ [p]) := by
  induction xs with
  | nil => trivial
  | cons x rest ih =>
    cases rest with
    | nil => exact ⟨h2 x rfl, trivial⟩
    | cons y rest' =>
      refine ⟨h1.1, ih h1.2 ?_⟩
      intro q hq
      apply h2
      rw [List.getLast?_cons_cons]
      exact hq

theorem chainedFwd_reverse (l : List Period) (h : chainedRev l) :
    chainedFwd l.reverse := by
  induction l with
  | nil => trivial
  | cons p rest ih =>
    rw [List.reverse_cons]
    apply chainedFwd_append_single
    · apply ih
      cases rest with
      | nil => trivial
      | cons q rest' => exact h.2
    · intro q hq
      rw [List.getLast?_reverse] at hq
      cases rest with
      | nil => simp at hq
      | cons y rest' =>
        simp only [List.head?_cons, Option.some.injEq] at hq
        exact hq ▸ h.1

/-- C2: timeline continuity. Consecutive Periods returned by
get_positions_timeline are linked (each time_out equals the next time_in)
and the final Period's time_out equals to_date exactly. -/
theorem timeline_continuity (from_date to_date : Int) (magics : List Int)
    (deals : List Deal) :
    chainedFwd (get_positions_timeline from_date to_date magics deals)
    ∧ ∀ p, (get_positions_timeline from_date to_date magics deals).getLast? = some p →
        p.time_out = some to_date := by
  have main : ∀ (st : TimelineState) (trading sorted : List Deal) (fromTs toTs : Int),
      st.timeline_rev ≠ [] → chainedRev st.timeline_rev →
      chainedFwd ((setHeadTimeOut to_date
          (replayDeals trading fromTs toTs st sorted).timeline_rev).reverse)
      ∧ ∀ p, ((setHeadTimeOut to_date
            (replayDeals trading fromTs toTs st sorted).timeline_rev).reverse).getLast?
          = some p → p.time_out = some to_date := by
    intro st trading sorted fromTs toTs h1 h2
    have hOK := revOK_replayDeals trading fromTs toTs st sorted h1 h2
    constructor
    · exact chainedFwd_reverse _ (chainedRev_setHeadTimeOut _ _ hOK.2)
    · intro p hp
      rw [List.getLast?_reverse] at hp
      cases hrev : (replayDeals trading fromTs toTs st sorted).timeline_rev with
      | nil => exact absurd hrev hOK.1
      | cons q rest =>
        rw [hrev] at hp
        simp only [setHeadTimeOut, List.head?_cons, Option.some.injEq] at hp
        rw [← hp]
  simp only [get_positions_timeline]
  exact main _ _ _ _ _ (List.cons_ne_nil _ _) (by simp [chainedRev])

/-- Witness for C2 at the position-id-reuse scenario (4 Periods). -/
theorem timeline_continuity_witness :
    chainedFwd (get_positions_timeline exFrom exTo [7]
        [dealReopenIn, dealReopenOut, dealReopenIn2])
    ∧ (⟨[⟨"EURUSD", "Buy", 1, 1, 7⟩], 59200, some 110800, 0⟩ : Period).time_out
        = some exTo :=
  ⟨(timeline_continuity exFrom exTo [7] [dealReopenIn, dealReopenOut, dealReopenIn2]).1,
    (timeline_continuity exFrom exTo [7] [dealReopenIn, dealReopenOut, dealReopenIn2]).2
      ⟨[⟨"EURUSD", "Buy", 1, 1, 7⟩], 59200, some 110800, 0⟩
      (by norm_num [get_positions_timeline, sortTimeline, relevantPid, posMagicLookup,
        buildStartPositions, startStep, initCurrent, emitPositions, emitPosition, newPosState,
        resolvePosMagic, replayDeals, processDeal, dealEffect, applyEffect, alookup, setKey,
        eraseKey, setHeadTimeOut, setHeadBalance, calculate_balance_at_date, sortByTime,
        accumulateDeals, targetTimestamp, targetDateTime, startOfDaySec, dealContribution,
        exFrom, exTo, shiftSeconds, LOCAL_TIMESHIFT, List.insertionSort, List.orderedInsert,
        timeDealLE, timeLE, dealReopenIn, dealReopenOut, dealReopenIn2])⟩

/-! ## Claim C8 amended: what actually happens on an inverted window -/

theorem replayDeals_inverted (trading : List Deal) (fromTs toTs : Int)
    (st : TimelineState) (l : List Deal) (h : toTs < fromTs) :
    replayDeals trading fromTs toTs st l = st := by
  induction l with
  | nil => rfl
  | cons d rest ih =>
    unfold replayDeals
    by_cases h1 : d.time < fromTs
    · rw [if_pos h1]; exact ih
    · rw [if_neg h1, if_pos (by omega)]

theorem aggProcessed_inverted (f t : Int) (d : Deal) (h : t < f) :
    aggProcessed (some f) (some t) d = false := by
  unfold aggProcessed
  by_cases h2 : d.type = 2
  · rw [if_pos h2]
  · rw [if_neg h2]
    by_cases h3 : d.time - shiftSeconds < f
    · simp [h3]
    · simp [h3]
      omega

/-- C8 amended: neither windowed operation rejects an inverted window.
validate_date_range does compute the from ≤ to check but is not called by
either operation; get_positions_timeline returns exactly one Period with
time_in = from_date > to_date = time_out, and calculate_by_magics skips
every deal, returning the empty aggregate. -/
theorem invalid_range_not_rejected (f t : Int) (magics : List Int) (deals : List Deal)
    (s : Option String) (g : Option (List (Int × List Int))) (h : t < f) :
    validate_date_range f t = false
    ∧ (get_positions_timeline f t magics deals).length = 1
    ∧ (∀ p, (get_positions_timeline f t magics deals).head? = some p →
        p.time_in = f ∧ p.time_out = some t)
    ∧ calculate_by_magics deals s (some f) (some t) g = ⟨[], 0, none, []⟩ := by
  have hts : t - shiftSeconds < f - shiftSeconds := by omega
  refine ⟨?_, ?_, ?_, ?_⟩
  · simp only [validate_date_range, decide_eq_false_iff_not]
    omega
  · simp only [get_positions_timeline]
    rw [replayDeals_inverted _ _ _ _ _ hts]
    simp [setHeadTimeOut]
  · simp only [get_positions_timeline]
    rw [replayDeals_inverted _ _ _ _ _ hts]
    intro p hp
    simp only [setHeadTimeOut, List.reverse_cons, List.reverse_nil, List.nil_append,
      List.head?_cons, Option.some.injEq] at hp
    rw [← hp]
    exact ⟨rfl, rfl⟩
  · have hloop : ∀ (l : List Deal) (st : AggState),
        l.foldl (aggStep deals s (some f) (some t) g) st = st := by
      intro l
      induction l with
      | nil => exact fun st => rfl
      | cons d rest ih =>
        intro st
        rw [List.foldl_cons]
        have : aggStep deals s (some f) (some t) g st d = st := by
          simp [aggStep, aggProcessed_inverted f t d h]
        rw [this]
        exact ih st
    unfold calculate_by_magics aggLoop
    rw [hloop]
    rfl

/-- Witness for C8's amended claim at a concrete inverted window. -/
theorem invalid_range_not_rejected_witness :
    validate_date_range exTo exFrom = false
    ∧ (get_positions_timeline exTo exFrom [7] [dealOpen]).length = 1
    ∧ ((⟨[⟨"EURUSD", "Buy", 1, 1, 7⟩], exTo, some exFrom, -2⟩ : Period).time_in = exTo
        ∧ (⟨[⟨"EURUSD", "Buy", 1, 1, 7⟩], exTo, some exFrom, -2⟩ : Period).time_out
            = some exFrom)
    ∧ calculate_by_magics [dealOpen] none (some exTo) (some exFrom) none
        = ⟨[], 0, none, []⟩ := by
  have hmain := invalid_range_not_rejected exTo exFrom [7] [dealOpen] none none
    (by norm_num [exFrom, exTo])
  refine ⟨hmain.1, hmain.2.1, ?_, hmain.2.2.2⟩
  exact hmain.2.2.1 ⟨[⟨"EURUSD", "Buy", 1, 1, 7⟩], exTo, some exFrom, -2⟩
    (by norm_num [get_positions_timeline, sortTimeline, relevantPid, posMagicLookup,
      buildStartPositions, startStep, initCurrent, emitPositions, emitPosition, newPosState,
      resolvePosMagic, replayDeals, processDeal, dealEffect, applyEffect, alookup, setKey,
      eraseKey, setHeadTimeOut, setHeadBalance, calculate_balance_at_date, sortByTime,
      accumulateDeals, targetTimestamp, targetDateTime, startOfDaySec, dealContribution,
      exFrom, exTo, shiftSeconds, LOCAL_TIMESHIFT, List.insertionSort, List.orderedInsert,
      timeDealLE, timeLE, dealOpen])

/-! ## Claim C1 amended: per-deal balance updates inside the window -/

theorem applyEffect_balance (st : TimelineState) (dt : Int)
    (r : Bool × ℚ × List (Int × PosState)) :
    (applyEffect st dt r).current_balance = st.current_balance + r.2.1 := by
  obtain ⟨c, bc, m⟩ := r
  unfold applyEffect
  cases c with
  | true => rfl
  | false =>
    by_cases hcond : bc ≠ 0 ∧ st.timeline_rev ≠ []
    · simp only [Bool.false_eq_true, if_false, if_pos hcond]
    · simp only [Bool.false_eq_true, if_false, if_neg hcond]

/-- C1 amended: during the in-window replay, an opening deal (entry=In on a
non-zero position_id) changes the running balance by exactly its swap; an
entry=Out deal with volume > 0 ON A STILL-OPEN POSITION changes it by
profit + swap + 2*commission; an entry=Out deal with volume = 0 on a
still-open position changes it by swap only, leaves the pool unchanged,
does not end the current Period and keeps the current Period's balance equal
to the running balance; an entry=Out deal on a position NOT currently open
changes the balance by swap only (not by the close formula). For the
round-trip pair (open commission -2; close profit 10, swap -1,
commission -2) the balance attributed at the close is 10 - 1 - 4 = 5. -/
theorem per_deal_balance_updates (trading : List Deal) (st : TimelineState) (d : Deal) :
    (d.position_id ≠ 0 → d.entry = 0 →
      (processDeal trading st d).current_balance = st.current_balance + d.swap)
    ∧ (d.position_id ≠ 0 → d.entry = 1 →
        ∀ pos, alookup d.position_id st.current_positions = some pos → 0 < |d.volume| →
        (processDeal trading st d).current_balance
          = st.current_balance + (d.profit + d.swap + d.commission * 2))
    ∧ (d.position_id ≠ 0 → d.entry = 1 →
        ∀ pos, alookup d.position_id st.current_positions = some pos → |d.volume| = 0 →
        (processDeal trading st d).current_balance = st.current_balance + d.swap
        ∧ (processDeal trading st d).current_positions = st.current_positions
        ∧ (processDeal trading st d).timeline_rev.length = st.timeline_rev.length
        ∧ ((processDeal trading st d).timeline_rev.head?).map
              (fun p => (p.time_in, p.time_out))
            = (st.timeline_rev.head?).map (fun p => (p.time_in, p.time_out))
        ∧ ((st.timeline_rev.head?).map Period.balance = some st.current_balance →
            ((processDeal trading st d).timeline_rev.head?).map Period.balance
              = some (processDeal trading st d).current_balance))
    ∧ (d.position_id ≠ 0 → d.entry = 1 →
        alookup d.position_id st.current_positions = none →
        (processDeal trading st d).current_balance = st.current_balance + d.swap)
    ∧ (get_positions_timeline exFrom exTo [7] [dealOpen, dealClose]).map Period.balance
        = [0, 0, 5] := by
  refine ⟨fun hpid hin => ?_, fun hpid hout pos hlk hv => ?_,
    fun hpid hout pos hlk hv => ?_, fun hpid hout hlk => ?_, ?_⟩
  · unfold processDeal
    rw [if_neg hpid, applyEffect_balance]
    have : (dealEffect trading st.current_positions d).2.1 = d.swap := by
      unfold dealEffect
      rw [if_pos hin]
      cases alookup d.position_id st.current_positions <;> rfl
    rw [this]
  · unfold processDeal
    rw [if_neg hpid, applyEffect_balance]
    have : (dealEffect trading st.current_positions d).2.1
        = d.profit + d.swap + d.commission * 2 := by
      unfold dealEffect
      rw [if_neg (by rw [hout]; exact one_ne_zero), if_pos hout, hlk]
      simp only [if_pos hv]
      by_cases htv : pos.total_volume - |d.volume| ≤ 0
      · rw [if_pos htv]
      · rw [if_neg htv]
    rw [this]
  · have heff : dealEffect trading st.current_positions d
        = (false, d.swap, st.current_positions) := by
      unfold dealEffect
      rw [if_neg (by rw [hout]; exact one_ne_zero), if_pos hout, hlk]
      rw [hv]
      simp
    unfold processDeal
    rw [if_neg hpid, heff]
    unfold applyEffect
    simp only [Bool.false_eq_true, if_false]
    by_cases hcond : d.swap ≠ 0 ∧ st.timeline_rev ≠ []
    · rw [if_pos hcond]
      refine ⟨rfl, rfl, ?_, ?_, fun _ => ?_⟩
      · cases st.timeline_rev <;> simp [setHeadBalance]
      · rcases hcond with ⟨_, hne⟩
        cases hl : st.timeline_rev with
        | nil => exact absurd hl hne
        | cons p rest => simp [setHeadBalance]
      · rcases hcond with ⟨_, hne⟩
        cases hl : st.timeline_rev with
        | nil => exact absurd hl hne
        | cons p rest => simp [setHeadBalance]
    · rw [if_neg hcond]
      refine ⟨rfl, rfl, rfl, rfl, fun hb => ?_⟩
      rcases not_and_or.mp hcond with hs0 | hne
      · have hs0 : d.swap = 0 := not_not.mp hs0
        rw [hs0, add_zero]
        exact hb
      · cases hl : st.timeline_rev with
        | nil => rw [hl] at hb; simp at hb
        | cons p rest => exact absurd hl (fun hcons => hne (hcons ▸ List.cons_ne_nil p rest))
  · unfold processDeal
    rw [if_neg hpid, applyEffect_balance]
    have : (dealEffect trading st.current_positions d).2.1 = d.swap := by
      unfold dealEffect
      rw [if_neg (by rw [hout]; exact one_ne_zero), if_pos hout, hlk]
    rw [this]
  · norm_num [get_positions_timeline, sortTimeline, relevantPid, posMagicLookup,
      buildStartPositions, startStep, initCurrent, emitPositions, emitPosition, newPosState,
      resolvePosMagic, replayDeals, processDeal, dealEffect, applyEffect, alookup, setKey,
      eraseKey, setHeadTimeOut, setHeadBalance, calculate_balance_at_date, sortByTime,
      accumulateDeals, targetTimestamp, targetDateTime, startOfDaySec, dealContribution,
      exFrom, exTo, shiftSeconds, LOCAL_TIMESHIFT, List.insertionSort, List.orderedInsert,
      timeDealLE, timeLE, dealOpen, dealClose]

/-- Witness for C1's amended claim: all four per-deal cases discharged at a
concrete mid-replay state. -/
theorem per_deal_balance_updates_witness :
    (processDeal [dealOpen, dealClose] exState dealOpen).current_balance
        = exState.current_balance + dealOpen.swap
    ∧ (processDeal [dealOpen, dealClose] exState dealClose).current_balance
        = exState.current_balance
          + (dealClose.profit + dealClose.swap + dealClose.commission * 2)
    ∧ (processDeal [dealOpen, dealClose] exState dealSwapTick).current_balance
        = exState.current_balance + dealSwapTick.swap
    ∧ (processDeal [dealOpen, dealClose] exState dealSwapTick).current_positions
        = exState.current_positions
    ∧ (processDeal [dealOpen, dealClose] exState dealOrphanOut).current_balance
        = exState.current_balance + dealOrphanOut.swap := by
  have h3 := (per_deal_balance_updates [dealOpen, dealClose] exState dealSwapTick).2.2.1
    (by decide) (by decide) examplePos rfl
    (by norm_num [dealSwapTick])
  refine ⟨?_, ?_, h3.1, h3.2.1, ?_⟩
  · exact (per_deal_balance_updates [dealOpen, dealClose] exState dealOpen).1
      (by decide) (by decide)
  · exact (per_deal_balance_updates [dealOpen, dealClose] exState dealClose).2.1
      (by decide) (by decide) examplePos rfl (by norm_num [dealClose])
  · exact (per_deal_balance_updates [dealOpen, dealClose] exState dealOrphanOut).2.2.2.1
      (by decide) (by decide) rfl

/-! ## Claim C7: volume positivity and removal from the open pool -/

theorem alookup_mem {α β : Type} [DecidableEq α] (k : α) (v : β) (m : List (α × β))
    (h : alookup k m = some v) : (k, v) ∈ m := by
  induction m with
  | nil => simp [alookup] at h
  | cons e rest ih =>
    obtain ⟨ek, ev⟩ := e
    by_cases hk : ek = k
    · subst hk
      simp [alookup] at h
      subst h
      exact List.mem_cons_self _ _
    · simp only [alookup, if_neg hk] at h
      exact List.mem_cons_of_mem _ (ih h)

theorem alookup_eq_none_iff {α β : Type} [DecidableEq α] (k : α) (m : List (α × β)) :
    alookup k m = none ↔ ∀ e ∈ m, e.1 ≠ k := by
  induction m with
  | nil => simp [alookup]
  | cons e rest ih =>
    obtain ⟨ek, ev⟩ := e
    by_cases hk : ek = k
    · subst hk
      simp [alookup, ih]
    · simp [alookup, hk, ih]

theorem poolVolumesPos_setKey (k : Int) (f : PosState → PosState)
    (m : List (Int × PosState)) (h : poolVolumesPos m)
    (hf : ∀ v, alookup k m = some v → 0 < (f v).total_volume) :
    poolVolumesPos (setKey k f m) := by
  induction m with
  | nil => intro e he; simp [setKey] at he
  | cons e rest ih =>
    obtain ⟨ek, ev⟩ := e
    by_cases hk : ek = k
    · subst hk
      rw [setKey, if_pos rfl]
      intro e he
      rcases List.mem_cons.mp he with rfl | hrest
      · exact hf ev (by rw [alookup, if_pos rfl])
      · exact h e (List.mem_cons_of_mem _ hrest)
    · rw [setKey, if_neg hk]
      intro e he
      rcases List.mem_cons.mp he with rfl | hrest
      · exact h (ek, ev) (List.mem_cons_self _ _)
      · exact ih (fun e' he' => h e' (List.mem_cons_of_mem _ he'))
          (fun v hv => hf v (by rw [alookup, if_neg hk]; exact hv)) e hrest

theorem poolVolumesPos_eraseKey (k : Int) (m : List (Int × PosState))
    (h : poolVolumesPos m) : poolVolumesPos (eraseKey k m) := by
  intro e he
  exact h e (List.mem_of_mem_filter he)

theorem poolVolumesPos_append (k : Int) (v : PosState) (m : List (Int × PosState))
    (h : poolVolumesPos m) (hv : 0 < v.total_volume) :
    poolVolumesPos (m ++ [(k, v)]) := by
  intro e he
  rcases List.mem_append.mp he with hm | hlast
  · exact h e hm
  · rcases List.mem_singleton.mp hlast with rfl
    exact hv

theorem newPosState_volume_pos (trading : List Deal) (d : Deal) (hd : d.volume ≠ 0) :
    0 < (newPosState trading d).total_volume := by
  simp only [newPosState]
  exact abs_pos.mpr hd

theorem poolVolumesPos_startStep (trading : List Deal) (m : List (Int × PosState))
    (d : Deal) (hd : d.entry = 0 → d.volume ≠ 0) (h : poolVolumesPos m) :
    poolVolumesPos (startStep trading m d) := by
  unfold startStep
  by_cases hpid : d.position_id = 0
  · rw [if_pos hpid]; exact h
  · rw [if_neg hpid]
    by_cases hin : d.entry = 0
    · rw [if_pos hin]
      cases halk : alookup d.position_id m with
      | none => exact poolVolumesPos_append _ _ _ h (newPosState_volume_pos trading d (hd hin))
      | some pos =>
        apply poolVolumesPos_setKey _ _ _ h
        intro v hv
        have hvpos := h _ (alookup_mem _ _ _ hv)
        have : (0 : ℚ) ≤ |d.volume| := abs_nonneg _
        simp only []
        linarith
    · rw [if_neg hin]
      by_cases hout : d.entry = 1
      · rw [if_pos hout]
        cases halk : alookup d.position_id m with
        | none => exact h
        | some pos =>
          by_cases htv : pos.total_volume - |d.volume| ≤ 0
          · simp only [if_pos htv]
            exact poolVolumesPos_eraseKey _ _ h
          · simp only [if_neg htv]
            apply poolVolumesPos_setKey _ _ _ h
            intro v hv
            rw [halk, Option.some.injEq] at hv
            subst hv
            simp only []
            linarith
      · rw [if_neg hout]; exact h

theorem poolVolumesPos_buildStart (trading : List Deal) (fromTs : Int)
    (l : List Deal) (m : List (Int × PosState))
    (hl : ∀ d ∈ l, d.entry = 0 → d.volume ≠ 0) (h : poolVolumesPos m) :
    poolVolumesPos (buildStartPositions trading fromTs l m) := by
  induction l generalizing m with
  | nil => exact h
  | cons d rest ih =>
    unfold buildStartPositions
    by_cases hb : fromTs ≤ d.time
    · rw [if_pos hb]; exact h
    · rw [if_neg hb]
      exact ih _ (fun x hx => hl x (List.mem_cons_of_mem _ hx))
        (poolVolumesPos_startStep trading m d (hl d (List.mem_cons_self _ _)) h)

theorem poolVolumesPos_initCurrent (m : List (Int × PosState))
    (h : poolVolumesPos m) : poolVolumesPos (initCurrent m) := by
  intro e he
  rcases List.mem_map.mp he with ⟨e', he', rfl⟩
  exact h e' he'

theorem poolVolumesPos_dealEffect (trading : List Deal)
    (pool : List (Int × PosState)) (d : Deal)
    (hd : d.entry = 0 → d.volume ≠ 0) (h : poolVolumesPos pool) :
    poolVolumesPos (dealEffect trading pool d).2.2 := by
  unfold dealEffect
  by_cases hin : d.entry = 0
  · rw [if_pos hin]
    cases halk : alookup d.position_id pool with
    | none => exact poolVolumesPos_append _ _ _ h (newPosState_volume_pos trading d (hd hin))
    | some pos =>
      apply poolVolumesPos_setKey _ _ _ h
      intro v hv
      have hvpos := h _ (alookup_mem _ _ _ hv)
      have : (0 : ℚ) ≤ |d.volume| := abs_nonneg _
      simp only []
      linarith
  · rw [if_neg hin]
    by_cases hout : d.entry = 1
    · rw [if_pos hout]
      cases halk : alookup d.position_id pool with
      | none => exact h
      | some pos =>
        by_cases hvol : 0 < |d.volume|
        · simp only [if_pos hvol]
          by_cases htv : pos.total_volume - |d.volume| ≤ 0
          · simp only [if_pos htv]
            exact poolVolumesPos_eraseKey _ _ h
          · simp only [if_neg htv]
            apply poolVolumesPos_setKey _ _ _ h
            intro v hv
            rw [halk, Option.some.injEq] at hv
            subst hv
            simp only []
            linarith
        · simp only [if_neg hvol]; exact h
    · rw [if_neg hout]; exact h

theorem emitPositions_volumes_pos (m : List (Int × PosState))
    (h : poolVolumesPos m) : ∀ q ∈ emitPositions m, 0 < q.volume := by
  intro q hq
  rcases List.mem_map.mp hq with ⟨e, he, rfl⟩
  exact h e he

theorem allVolumesPos_setHeadTimeOut (t : Int) (l : List Period)
    (h : allVolumesPos l) : allVolumesPos (setHeadTimeOut t l) := by
  match l with
  | [] => exact h
  | p :: rest =>
    intro x hx
    rcases List.mem_cons.mp hx with rfl | hrest
    · exact h p (List.mem_cons_self _ _)
    · exact h x (List.mem_cons_of_mem _ hrest)

theorem allVolumesPos_setHeadBalance (b : ℚ) (l : List Period)
    (h : allVolumesPos l) : allVolumesPos (setHeadBalance b l) := by
  match l with
  | [] => exact h
  | p :: rest =>
    intro x hx
    rcases List.mem_cons.mp hx with rfl | hrest
    · exact h p (List.mem_cons_self _ _)
    · exact h x (List.mem_cons_of_mem _ hrest)

theorem volumes_processDeal (trading : List Deal) (st : TimelineState) (d : Deal)
    (hd : d.entry = 0 → d.volume ≠ 0)
    (h1 : poolVolumesPos st.current_positions) (h2 : allVolumesPos st.timeline_rev) :
    poolVolumesPos (processDeal trading st d).current_positions
    ∧ allVolumesPos (processDeal trading st d).timeline_rev := by
  unfold processDeal
  by_cases hpid : d.position_id = 0
  · rw [if_pos hpid]; exact ⟨h1, h2⟩
  · rw [if_neg hpid]
    have hpool := poolVolumesPos_dealEffect trading st.current_positions d hd h1
    unfold applyEffect
    cases hc : (dealEffect trading st.current_positions d).1 with
    | true =>
      simp only [if_pos]
      refine ⟨hpool, ?_⟩
      intro p hp
      rcases List.mem_cons.mp hp with rfl | hrest
      · exact emitPositions_volumes_pos _ hpool
      · exact allVolumesPos_setHeadTimeOut _ _ h2 p hrest
    | false =>
      simp only [Bool.false_eq_true, if_false]
      by_cases hcond : (dealEffect trading st.current_positions d).2.1 ≠ 0
          ∧ st.timeline_rev ≠ []
      · rw [if_pos hcond]
        exact ⟨h1, allVolumesPos_setHeadBalance _ _ h2⟩
      · rw [if_neg hcond]
        exact ⟨h1, h2⟩

theorem volumes_replayDeals (trading : List Deal) (fromTs toTs : Int)
    (st : TimelineState) (l : List Deal)
    (hl : ∀ d ∈ l, d.entry = 0 → d.volume ≠ 0)
    (h1 : poolVolumesPos st.current_positions) (h2 : allVolumesPos st.timeline_rev) :
    poolVolumesPos (replayDeals trading fromTs toTs st l).current_positions
    ∧ allVolumesPos (replayDeals trading fromTs toTs st l).timeline_rev := by
  induction l generalizing st with
  | nil => exact ⟨h1, h2⟩
  | cons d rest ih =>
    unfold replayDeals
    by_cases ha : d.time < fromTs
    · rw [if_pos ha]
      exact ih st (fun x hx => hl x (List.mem_cons_of_mem _ hx)) h1 h2
    · rw [if_neg ha]
      by_cases hb : toTs < d.time
      · rw [if_pos hb]; exact ⟨h1, h2⟩
      · rw [if_neg hb]
        have hP := volumes_processDeal trading st d (hl d (List.mem_cons_self _ _)) h1 h2
        exact ih _ (fun x hx => hl x (List.mem_cons_of_mem _ hx)) hP.1 hP.2

theorem alookup_none_append (k k' : Int) (v : PosState) (m : List (Int × PosState))
    (h : alookup k m = none) (hk : k' ≠ k) : alookup k (m ++ [(k', v)]) = none := by
  rw [alookup_eq_none_iff] at h ⊢
  intro e he
  rcases List.mem_append.mp he with hm | hone
  · exact h e hm
  · rcases List.mem_singleton.mp hone with rfl
    exact hk

theorem setKey_keys {α β : Type} [DecidableEq α] (k' : α) (f : β → β)
    (m : List (α × β)) : (setKey k' f m).map Prod.fst = m.map Prod.fst := by
  induction m with
  | nil => rfl
  | cons e rest ih =>
    obtain ⟨ek, ev⟩ := e
    by_cases hk : ek = k'
    · simp [setKey, if_pos hk]
    · simp [setKey, if_neg hk, ih]

theorem alookup_none_setKey (k k' : Int) (f : PosState → PosState)
    (m : List (Int × PosState)) (h : alookup k m = none) :
    alookup k (setKey k' f m) = none := by
  rw [alookup_eq_none_iff] at h ⊢
  intro e he
  have hkeys : e.1 ∈ (setKey k' f m).map Prod.fst := List.mem_map_of_mem _ he
  rw [setKey_keys] at hkeys
  rcases List.mem_map.mp hkeys with ⟨e', he', hfst⟩
  rw [← hfst]
  exact h e' he'

theorem alookup_none_eraseKey (k k' : Int) (m : List (Int × PosState))
    (h : alookup k m = none) : alookup k (eraseKey k' m) = none := by
  rw [alookup_eq_none_iff] at h ⊢
  exact fun e he => h e (List.mem_of_mem_filter he)

theorem alookup_eraseKey_self (k : Int) (m : List (Int × PosState)) :
    alookup k (eraseKey k m) = none := by
  rw [alookup_eq_none_iff]
  intro e he
  have := List.of_mem_filter he
  simpa using this

theorem absent_dealEffect (trading : List Deal) (pool : List (Int × PosState))
    (d : Deal) (pid : Int) (h : alookup pid pool = none)
    (hd : ¬(d.entry = 0 ∧ d.position_id = pid)) :
    alookup pid (dealEffect trading pool d).2.2 = none := by
  unfold dealEffect
  by_cases hin : d.entry = 0
  · rw [if_pos hin]
    have hpid : d.position_id ≠ pid := fun hc => hd ⟨hin, hc⟩
    cases halk : alookup d.position_id pool with
    | none => exact alookup_none_append _ _ _ _ h hpid
    | some pos => exact alookup_none_setKey _ _ _ _ h
  · rw [if_neg hin]
    by_cases hout : d.entry = 1
    · rw [if_pos hout]
      cases halk : alookup d.position_id pool with
      | none => exact h
      | some pos =>
        by_cases hvol : 0 < |d.volume|
        · simp only [if_pos hvol]
          by_cases htv : pos.total_volume - |d.volume| ≤ 0
          · simp only [if_pos htv]
            exact alookup_none_eraseKey _ _ _ h
          · simp only [if_neg htv]
            exact alookup_none_setKey _ _ _ _ h
        · simp only [if_neg hvol]; exact h
    · rw [if_neg hout]; exact h

theorem applyEffect_positions (st : TimelineState) (dt : Int)
    (r : Bool × ℚ × List (Int × PosState)) :
    (applyEffect st dt r).current_positions = r.2.2
    ∨ (applyEffect st dt r).current_positions = st.current_positions := by
  obtain ⟨c, bc, m⟩ := r
  unfold applyEffect
  cases c with
  | true => exact Or.inl rfl
  | false =>
    simp only [Bool.false_eq_true, if_false]
    by_cases hcond : bc ≠ 0 ∧ st.timeline_rev ≠ []
    · rw [if_pos hcond]
      exact Or.inr rfl
    · rw [if_neg hcond]
      exact Or.inr rfl

theorem absent_processDeal (trading : List Deal) (st : TimelineState) (d : Deal)
    (pid : Int) (h : alookup pid st.current_positions = none)
    (hd : ¬(d.entry = 0 ∧ d.position_id = pid)) :
    alookup pid (processDeal trading st d).current_positions = none := by
  unfold processDeal
  by_cases hpid : d.position_id = 0
  · rw [if_pos hpid]; exact h
  · rw [if_neg hpid]
    rcases applyEffect_positions st (d.time - shiftSeconds)
        (dealEffect trading st.current_positions d) with hpos | hpos
    · rw [hpos]
      exact absent_dealEffect trading st.current_positions d pid h hd
    · rw [hpos]; exact h

theorem absent_replayDeals (trading : List Deal) (fromTs toTs : Int)
    (st : TimelineState) (l : List Deal) (pid : Int)
    (h : alookup pid st.current_positions = none)
    (hl : ∀ d ∈ l, ¬(d.entry = 0 ∧ d.position_id = pid)) :
    alookup pid (replayDeals trading fromTs toTs st l).current_positions = none := by
  induction l generalizing st with
  | nil => exact h
  | cons d rest ih =>
    unfold replayDeals
    by_cases ha : d.time < fromTs
    · rw [if_pos ha]
      exact ih st h (fun x hx => hl x (List.mem_cons_of_mem _ hx))
    · rw [if_neg ha]
      by_cases hb : toTs < d.time
      · rw [if_pos hb]; exact h
      · rw [if_neg hb]
        exact ih _ (absent_processDeal trading st d pid h (hl d (List.mem_cons_self _ _)))
          (fun x hx => hl x (List.mem_cons_of_mem _ hx))

/-- C7 counterexample: an entry=In deal with volume 0 yields an emitted
Period whose open-position list holds a position with volume 0 (not > 0);
and after a full close the same position_id is re-created by a later
entry=In deal, so the closed position is not absent from every subsequent
Period (the position counts per Period are 0, 1, 0, 1). -/
theorem position_volume_counterexample :
    (get_positions_timeline exFrom exTo [7] [dealZeroVol]).map
        (fun p => p.positions.map Position.volume) = [[], [0]]
    ∧ ¬ (0 : ℚ) < 0
    ∧ (get_positions_timeline exFrom exTo [7]
        [dealReopenIn, dealReopenOut, dealReopenIn2]).map
          (fun p => p.positions.length) = [0, 1, 0, 1] := by
  refine ⟨?_, lt_irrefl 0, ?_⟩
  · norm_num [get_positions_timeline, sortTimeline, relevantPid, posMagicLookup,
      buildStartPositions, startStep, initCurrent, emitPositions, emitPosition, newPosState,
      resolvePosMagic, replayDeals, processDeal, dealEffect, applyEffect, alookup, setKey,
      eraseKey, setHeadTimeOut, setHeadBalance, calculate_balance_at_date, sortByTime,
      accumulateDeals, targetTimestamp, targetDateTime, startOfDaySec, dealContribution,
      exFrom, exTo, shiftSeconds, LOCAL_TIMESHIFT, List.insertionSort, List.orderedInsert,
      timeDealLE, timeLE, dealZeroVol]
  · norm_num [get_positions_timeline, sortTimeline, relevantPid, posMagicLookup,
      buildStartPositions, startStep, initCurrent, emitPositions, emitPosition, newPosState,
      resolvePosMagic, replayDeals, processDeal, dealEffect, applyEffect, alookup, setKey,
      eraseKey, setHeadTimeOut, setHeadBalance, calculate_balance_at_date, sortByTime,
      accumulateDeals, targetTimestamp, targetDateTime, startOfDaySec, dealContribution,
      exFrom, exTo, shiftSeconds, LOCAL_TIMESHIFT, List.insertionSort, List.orderedInsert,
      timeDealLE, timeLE, dealReopenIn, dealReopenOut, dealReopenIn2]

/-- C7 amended: (1) when every opening deal has non-zero volume, every
position of every emitted Period has volume > 0; (2) once a position_id is
out of the open pool it stays out across replay of any deals that contain no
entry=In deal for it (a later entry=In deal re-creates it — position-id
reuse); (3) a closing deal with volume > 0 that drives total_volume ≤ 0
removes its position_id from the pool. -/
theorem position_volume_invariants (f t : Int) (magics : List Int) (deals : List Deal) :
    ((∀ d ∈ deals, d.entry = 0 → d.volume ≠ 0) →
      allVolumesPos (get_positions_timeline f t magics deals))
    ∧ (∀ (trading : List Deal) (fromTs toTs : Int) (st : TimelineState)
        (l : List Deal) (pid : Int),
        alookup pid st.current_positions = none →
        (∀ d ∈ l, ¬(d.entry = 0 ∧ d.position_id = pid)) →
        alookup pid (replayDeals trading fromTs toTs st l).current_positions = none)
    ∧ (∀ (trading : List Deal) (st : TimelineState) (d : Deal) (pos : PosState),
        d.position_id ≠ 0 → d.entry = 1 →
        alookup d.position_id st.current_positions = some pos →
        0 < |d.volume| → pos.total_volume - |d.volume| ≤ 0 →
        alookup d.position_id (processDeal trading st d).current_positions = none) := by
  refine ⟨fun hIn => ?_, absent_replayDeals, ?_⟩
  · have main : ∀ (st : TimelineState) (trading sorted : List Deal) (fromTs toTs : Int),
        (∀ d ∈ sorted, d.entry = 0 → d.volume ≠ 0) →
        poolVolumesPos st.current_positions → allVolumesPos st.timeline_rev →
        allVolumesPos ((setHeadTimeOut t
          (replayDeals trading fromTs toTs st sorted).timeline_rev).reverse) := by
      intro st trading sorted fromTs toTs hs hp ha
      have hrep := volumes_replayDeals trading fromTs toTs st sorted hs hp ha
      intro p hp'
      rw [List.mem_reverse] at hp'
      exact allVolumesPos_setHeadTimeOut _ _ hrep.2 p hp'
    have hsortmem : ∀ x ∈ sortTimeline ((deals.filter (fun d => d.type ≠ 2)).filter
        (fun d => relevantPid (deals.filter (fun d => d.type ≠ 2)) magics d.position_id)),
        x.entry = 0 → x.volume ≠ 0 := by
      intro x hx
      exact hIn x (List.mem_of_mem_filter (List.mem_of_mem_filter
        ((List.perm_insertionSort timeDealLE _).mem_iff.mp hx)))
    have hstartpool : poolVolumesPos (initCurrent (buildStartPositions
        (deals.filter (fun d => d.type ≠ 2)) (f - shiftSeconds)
        (sortTimeline ((deals.filter (fun d => d.type ≠ 2)).filter
          (fun d => relevantPid (deals.filter (fun d => d.type ≠ 2)) magics d.position_id)))
        [])) := by
      apply poolVolumesPos_initCurrent
      apply poolVolumesPos_buildStart _ _ _ _ hsortmem
      intro e he
      simp at he
    simp only [get_positions_timeline]
    apply main
    · exact hsortmem
    · exact hstartpool
    · intro p hp'
      rcases List.mem_singleton.mp hp' with rfl
      exact emitPositions_volumes_pos _ hstartpool
  · intro trading st d pos hpid hout hlk hvol htv
    unfold processDeal
    rw [if_neg hpid]
    have heff1 : (dealEffect trading st.current_positions d).1 = true := by
      unfold dealEffect
      rw [if_neg (by rw [hout]; exact one_ne_zero), if_pos hout, hlk]
      simp only [if_pos hvol, if_pos htv]
    have heff2 : (dealEffect trading st.current_positions d).2.2
        = eraseKey d.position_id st.current_positions := by
      unfold dealEffect
      rw [if_neg (by rw [hout]; exact one_ne_zero), if_pos hout, hlk]
      simp only [if_pos hvol, if_pos htv]
    unfold applyEffect
    rw [heff1]
    simp only [if_pos]
    rw [heff2]
    exact alookup_eraseKey_self _ _

/-- Witness for C7's amended claim: the three parts at concrete inputs. -/
theorem position_volume_invariants_witness :
    allVolumesPos (get_positions_timeline exFrom exTo [7] [dealOpen, dealClose])
    ∧ alookup 2 (replayDeals [dealOpen, dealClose] 0 100000 exState
        [dealOpen]).current_positions = none
    ∧ alookup 1 (processDeal [dealOpen, dealClose] exState
        dealClose).current_positions = none :=
  ⟨(position_volume_invariants exFrom exTo [7] [dealOpen, dealClose]).1
      (by decide),
    (position_volume_invariants exFrom exTo [7] [dealOpen, dealClose]).2.1
      [dealOpen, dealClose] 0 100000 exState [dealOpen] 2 rfl (by decide),
    (position_volume_invariants exFrom exTo [7] [dealOpen, dealClose]).2.2
      [dealOpen, dealClose] exState dealClose examplePos (by decide) (by decide) rfl
      (by norm_num [dealClose]) (by norm_num [dealClose, examplePos])⟩

end MT5
